import Mathlib

/-!
Shallow embedding of the yep relational-model layer: the method-override
registry (`yep/models/methods.go`), the query compiler
(`yep/models/queries.go`) and the views collection (`ir` package).
Go maps are modelled as association lists, panics as `Except.error`, and
heap pointers to method layers as allocation-ordered natural identifiers.
Functions that are not among the source files (catalog lookups, the
database adapter, condition constructors, join rendering) are modelled
from the specification and say so in their doc comments.
-/

set_option maxRecDepth 4096

namespace Yep

/-- A scalar SQL argument value (a Go interface value passed to a driver
placeholder). -/
inductive SQLVal where
  | int : Int → SQLVal
  | str : String → SQLVal
deriving DecidableEq

/-- Association-list lookup, modelling a Go map read (a missing key gives
the zero value, here `none`). -/
def lookupA {α β : Type} [DecidableEq α] : List (α × β) → α → Option β
  | [], _ => none
  | (k, v) :: rest, key => if k = key then some v else lookupA rest key

/-- Remove every binding of the given key. -/
def eraseKey {α β : Type} [DecidableEq α] : List (α × β) → α → List (α × β)
  | [], _ => []
  | (k, v) :: rest, key =>
    if k = key then eraseKey rest key else (k, v) :: eraseKey rest key

/-- Association-list update, modelling a Go map write. -/
def setA {α β : Type} [DecidableEq α] (l : List (α × β)) (k : α) (v : β) :
    List (α × β) :=
  (k, v) :: eraseKey l k

mutual
/-- Per-model metadata: model name, table name and the field catalog
(the read contract of the Field/Model Catalog collaborator). -/
inductive ModelInfo where
  | mk : String → String → List (String × FieldInfo) → ModelInfo

/-- Per-field metadata: storage (json) column name, the required flag and
the related model of a relation field. -/
inductive FieldInfo where
  | mk : String → Bool → Option ModelInfo → FieldInfo
end

def ModelInfo.name : ModelInfo → String
  | .mk n _ _ => n

def ModelInfo.tableName : ModelInfo → String
  | .mk _ t _ => t

def ModelInfo.fields : ModelInfo → List (String × FieldInfo)
  | .mk _ _ f => f

def FieldInfo.json : FieldInfo → String
  | .mk j _ _ => j

def FieldInfo.required : FieldInfo → Bool
  | .mk _ r _ => r

def FieldInfo.relatedModel : FieldInfo → Option ModelInfo
  | .mk _ _ m => m

/-- `fieldsCollection.get`: catalog lookup of a field by name (read
contract of the catalog collaborator). -/
def fieldsGet (fields : List (String × FieldInfo)) (name : String) :
    Option FieldInfo :=
  lookupA fields name

mutual
/-- `Condition`: an ordered sequence of condValue nodes. -/
inductive Condition where
  | mk : List CondValue → Condition

/-- `condValue`: a leaf comparison (field path, operator, argument) or,
when `isCond` is set, a nested sub-condition; each node is tagged with the
`isOr` and `isNot` combinators. -/
inductive CondValue where
  | mk : List String → String → SQLVal → Condition → Bool → Bool → Bool →
      CondValue
end

def Condition.params : Condition → List CondValue
  | .mk ps => ps

def CondValue.exprs : CondValue → List String
  | .mk e _ _ _ _ _ _ => e

def CondValue.operator : CondValue → String
  | .mk _ o _ _ _ _ _ => o

def CondValue.arg : CondValue → SQLVal
  | .mk _ _ a _ _ _ _ => a

def CondValue.cond : CondValue → Condition
  | .mk _ _ _ c _ _ _ => c

def CondValue.isOr : CondValue → Bool
  | .mk _ _ _ _ o _ _ => o

def CondValue.isNot : CondValue → Bool
  | .mk _ _ _ _ _ n _ => n

def CondValue.isCond : CondValue → Bool
  | .mk _ _ _ _ _ _ c => c

/-- Replace the `isOr` tag of a condValue. -/
def CondValue.setOr : CondValue → Bool → CondValue
  | .mk e o a c _ n ic, b => .mk e o a c b n ic

/-- Modelled from the spec: `isEmpty()` is true iff the condition has no
nodes (`conditions.go` is not among the source files). -/
def Condition.IsEmpty : Condition → Bool
  | .mk ps => ps.isEmpty

/-- `RecordSet`: only its model reference is relevant to the compiler. -/
structure RecordSet where
  mi : ModelInfo

/-- The `Query` structure of queries.go. -/
structure Query where
  recordSet : RecordSet
  cond : Condition
  related : List String
  limit : Int
  offset : Int
  groups : List String
  orders : List String
  distinct : Bool

def Query.mi (q : Query) : ModelInfo := q.recordSet.mi

/-- Modelled from the spec: the backend adapter quotes identifiers; the
PostgreSQL-style adapter wraps them in double quotes (the adapter
implementation is not among the source files). -/
def quoteTableName (name : String) : String := "\"" ++ name ++ "\""

/-- Modelled from the spec: the adapter maps an operator to its SQL
fragment with one driver placeholder; for the scalar operators used here
the fragment is the operator text followed by a placeholder and the
argument passes through unchanged. -/
def operatorSQL (op : String) (arg : SQLVal) : String × SQLVal :=
  (op ++ " ?", arg)

/-- Separator used inside SQL aliases; its value is documented by the
queries.go comment: `['profile_id' 'user_id' 'name'] => "profiles__users".name`. -/
def sqlSep : String := "__"

/-- Separator of dotted field paths. -/
def ExprSep : String := "."

/-- Modelled from the spec: `jsonizeExpr` (catalog code, not among the
source files) resolves each segment of a field path against the model
catalog to its storage (json) column name, advancing through related
models; unknown fields and non-relation middle segments are fatal
configuration errors. -/
def jsonizeExpr : ModelInfo → List String → Except String (List String)
  | _, [] => .ok []
  | mi, e :: rest =>
    match fieldsGet mi.fields e with
    | none => .error "Unknown expression for model"
    | some fi =>
      match rest with
      | [] => .ok [fi.json]
      | r :: rs =>
        match fi.relatedModel with
        | none => .error "Expression is not a relation field"
        | some rm =>
          match jsonizeExpr rm (r :: rs) with
          | .error e2 => .error e2
          | .ok tail => .ok (fi.json :: tail)

/-- The `tableJoin` record built by generateTableJoins; the Go struct's
`otherTable` pointer is represented by the alias of the join it points at. -/
structure TableJoin where
  tableName : String
  aliasName : String
  joined : Bool
  innerJoin : Bool
  field : String
  otherTableAlias : String
  otherField : String
deriving DecidableEq

/-- The loop of generateTableJoins: walks the field expressions, emitting
one join per relation segment that is not the last segment; the two break
conditions of the source (`relatedModel == nil` and last index) commute
and are tested here with the last-index test first. -/
def generateTableJoinsAux :
    ModelInfo → String → String → List String → Except String (List TableJoin)
  | _, _, _, [] => .ok []
  | curMI, curAlias, prevAlias, expr :: rest =>
    match fieldsGet curMI.fields expr with
    | none => .error "Unparsable Expression"
    | some fi =>
      match rest with
      | [] => .ok []
      | r :: rs =>
        match fi.relatedModel with
        | none => .ok []
        | some rm =>
          let linkedTableName := quoteTableName rm.tableName
          let newAlias := curAlias ++ sqlSep ++ rm.tableName
          let nextTJ : TableJoin :=
            { tableName := linkedTableName
              aliasName := quoteTableName newAlias
              joined := true
              innerJoin := fi.required
              field := "id"
              otherTableAlias := prevAlias
              otherField := expr }
          match generateTableJoinsAux rm newAlias nextTJ.aliasName (r :: rs) with
          | .error e2 => .error e2
          | .ok tl => .ok (nextTJ :: tl)

/-- generateTableJoins: transforms a field-path expression into the list
of table joins it needs, headed by the (non-joined) current table. -/
def generateTableJoins (q : Query) (fieldExprs : List String) :
    Except String (List TableJoin) :=
  let currentTableName := quoteTableName q.mi.tableName
  let currentTJ : TableJoin :=
    { tableName := currentTableName
      aliasName := currentTableName
      joined := false
      innerJoin := false
      field := ""
      otherTableAlias := ""
      otherField := "" }
  match generateTableJoinsAux q.mi q.mi.tableName currentTJ.aliasName fieldExprs with
  | .error e => .error e
  | .ok tl => .ok (currentTJ :: tl)

/-- joinedFieldExpression: renders a (jsonized) field path as
`lastAlias.column`, optionally with an `AS` alias; an expression list
shorter than the join list is a runtime index error, as in Go. -/
def joinedFieldExpression (q : Query) (exprs : List String)
    (withAlias : Bool) : Except String String :=
  match generateTableJoins q exprs with
  | .error e => .error e
  | .ok joins =>
    match joins.getLast?, exprs.get? (joins.length - 1) with
    | some j, some e =>
      if withAlias then
        .ok (j.aliasName ++ "." ++ e ++ " AS " ++ String.intercalate sqlSep exprs)
      else
        .ok (j.aliasName ++ "." ++ e)
    | _, _ => .error "index out of range"

mutual
/-- conditionSQLClause: the WHERE-clause text and parameters of a
Condition, empty when the condition is empty. -/
def conditionSQLClause (q : Query) : Condition → Except String (String × List SQLVal)
  | .mk ps =>
    if (Condition.mk ps).IsEmpty then .ok ("", [])
    else condListSQLClause q ps true
termination_by c => sizeOf c

/-- The `first := true; for ... first = false` loop of
conditionSQLClause over the condition's params. -/
def condListSQLClause (q : Query) :
    List CondValue → Bool → Except String (String × List SQLVal)
  | [], _ => .ok ("", [])
  | v :: vs, first =>
    match condValueSQLClause q v first with
    | .error e => .error e
    | .ok (s1, a1) =>
      match condListSQLClause q vs false with
      | .error e => .error e
      | .ok (s2, a2) => .ok (s1 ++ s2, a1 ++ a2)
termination_by l _ => sizeOf l

/-- condValueSQLClause: the SQL clause of one condValue; when `isFirst`
the clause carries no leading `AND `/`OR ` connective. -/
def condValueSQLClause (q : Query) :
    CondValue → Bool → Except String (String × List SQLVal)
  | .mk exprs op arg c isOrTag isNotTag isCondTag, isFirst =>
    let pre1 := if isOrTag && !isFirst then "OR "
      else if !isFirst then "AND " else ""
    let pre2 := if isNotTag then "NOT " else ""
    if isCondTag then
      match conditionSQLClause q c with
      | .error e => .error e
      | .ok (ss, sa) => .ok (pre1 ++ pre2 ++ "(" ++ ss ++ ") ", sa)
    else
      match jsonizeExpr q.mi exprs with
      | .error e => .error e
      | .ok jexprs =>
        match joinedFieldExpression q jexprs false with
        | .error e => .error e
        | .ok fieldStr =>
          let osa := operatorSQL op arg
          .ok (pre1 ++ pre2 ++ fieldStr ++ " " ++ osa.1 ++ " ", [osa.2])
termination_by v _ => sizeOf v
end

/-- sqlWhereClause; the sqlx.In expansion is modelled from the spec as the
identity, because set-membership expansion only rewrites slice-valued
arguments and the arguments here are scalars. -/
def sqlWhereClause (q : Query) : Except String (String × List SQLVal) :=
  match conditionSQLClause q q.cond with
  | .error e => .error e
  | .ok (sql, args) =>
    .ok (if sql ≠ "" then "WHERE " ++ sql else sql, args)

/-- Modelled from the spec: the FROM-clause rendering of one tableJoin
(`tablejoin.go` is not among the source files): the root table renders as
its name, a joined table as an INNER or LEFT JOIN with its ON
constraint. -/
def TableJoin.sqlString (j : TableJoin) : String :=
  if j.joined then
    (if j.innerJoin then "INNER JOIN " else "LEFT JOIN ") ++ j.tableName
      ++ " " ++ j.aliasName ++ " ON " ++ j.aliasName ++ "." ++ j.field
      ++ " = " ++ j.otherTableAlias ++ "." ++ j.otherField ++ " "
  else j.tableName ++ " "

/-- The per-alias deduplicating inner loops of tablesSQL: each join whose
alias was not seen yet appends its SQL (first occurrence wins). -/
def addJoins : List TableJoin → List String → String → List String × String
  | [], seen, res => (seen, res)
  | j :: js, seen, res =>
    if j.aliasName ∈ seen then addJoins js seen res
    else addJoins js (j.aliasName :: seen) (res ++ j.sqlString)

/-- The outer loop of tablesSQL over all field expressions. -/
def tablesSQLAux (q : Query) :
    List (List String) → List String → String → Except String String
  | [], _, res => .ok res
  | f :: fs, seen, res =>
    match generateTableJoins q f with
    | .error e => .error e
    | .ok tJoins =>
      let sr := addJoins tJoins seen res
      tablesSQLAux q fs sr.1 sr.2

/-- tablesSQL: the FROM clause of the query, with joins deduplicated by
alias, first occurrence winning. -/
def tablesSQL (q : Query) (fExprs : List (List String)) : Except String String :=
  tablesSQLAux q fExprs [] ""

/-- `FieldMap`: a field-name-to-value map; the association-list order
stands for Go's map iteration order. -/
abbrev FieldMap := List (String × SQLVal)

/-- The shared per-key loop body of insertQuery and updateQuery: resolves
each map key through the catalog to its storage column, pairing it with
the entry's value; an unknown field is fatal. -/
def resolveFieldMap (fields : List (String × FieldInfo)) :
    FieldMap → Except String (List (String × SQLVal))
  | [] => .ok []
  | (k, v) :: rest =>
    match fieldsGet fields k with
    | none => .error "Unknown field in model"
    | some fi =>
      match resolveFieldMap fields rest with
      | .error e => .error e
      | .ok tl => .ok ((fi.json, v) :: tl)

/-- `"?" + strings.Repeat(", ?", n-1)`. -/
def placeholders (n : Nat) : String :=
  "?" ++ String.join (List.replicate (n - 1) ", ?")

/-- insertQuery: the INSERT statement and parameters for the given data. -/
def insertQuery (q : Query) (data : FieldMap) :
    Except String (String × List SQLVal) :=
  if data.isEmpty then .error "No data given for insert"
  else
    match resolveFieldMap q.mi.fields data with
    | .error e => .error e
    | .ok colVals =>
      let cols := colVals.map Prod.fst
      let vals := colVals.map Prod.snd
      let tableName := quoteTableName q.mi.tableName
      let fields := String.intercalate ", " cols
      let values := placeholders vals.length
      .ok ("INSERT INTO " ++ tableName ++ " (" ++ fields ++ ") VALUES ("
        ++ values ++ ") RETURNING id", vals)

/-- updateQuery: the UPDATE statement and parameters for the given data;
the WHERE clause is compiled by sqlWhereClause and its arguments follow
the update values. -/
def updateQuery (q : Query) (data : FieldMap) :
    Except String (String × List SQLVal) :=
  if data.isEmpty then .error "No data given for update"
  else
    match resolveFieldMap q.mi.fields data with
    | .error e => .error e
    | .ok colVals =>
      let cols := colVals.map (fun cv => cv.1 ++ " = ?")
      let vals := colVals.map Prod.snd
      let tableName := quoteTableName q.mi.tableName
      let updates := String.intercalate ", " cols
      match sqlWhereClause q with
      | .error e => .error e
      | .ok (whereSQL, args) =>
        .ok ("UPDATE " ++ tableName ++ " SET " ++ updates ++ " " ++ whereSQL,
          vals ++ args)

/-- deleteQuery: the DELETE statement and parameters of this query. -/
def deleteQuery (q : Query) : Except String (String × List SQLVal) :=
  match sqlWhereClause q with
  | .error e => .error e
  | .ok (sql, args) =>
    .ok ("DELETE FROM " ++ quoteTableName q.mi.tableName ++ " " ++ sql, args)

/-- Remove the spaces of a string (whitespace-insensitive comparison). -/
def stripSpaces (s : String) : String :=
  String.mk (s.data.filter (fun c => c ≠ ' '))

/-- Does `p` begin the character list `s`? -/
def listBeginsWith : List Char → List Char → Bool
  | [], _ => true
  | _ :: _, [] => false
  | a :: as, b :: bs => a == b && listBeginsWith as bs

/-- Does the string `s` begin with `p`? -/
def strBeginsWith (p s : String) : Bool :=
  listBeginsWith p.data s.data

mutual
/-- Total number of nodes (leaves and sub-condition nodes) of a condition
tree. -/
def countNodes : Condition → Nat
  | .mk ps => countNodesList ps
termination_by c => sizeOf c

def countNodesList : List CondValue → Nat
  | [] => 0
  | v :: vs => countNodesVal v + countNodesList vs
termination_by l => sizeOf l

def countNodesVal : CondValue → Nat
  | .mk _ _ _ c _ _ isCondTag => 1 + (if isCondTag then countNodes c else 0)
termination_by v => sizeOf v
end

/-! ## Method registry (methods.go) -/

/-- A Go function type, via reflection: input types and an output
signature; `recordSetTypeId` is the type of the `RecordSet` interface. -/
structure FuncType where
  ins : List Nat
  outTy : Nat
deriving DecidableEq

def recordSetTypeId : Nat := 0

/-- A Go function value: its identity (`reflect.Value`) and type. -/
structure FuncVal where
  fnId : Nat
  fnTy : FuncType
deriving DecidableEq

/-- A Go interface value passed to DeclareMethod: a function or not. -/
inductive GoValue where
  | func : FuncVal → GoValue
  | nonFunc : GoValue
deriving DecidableEq

/-- The heap record of a `methodLayer` (its back reference to the owning
methodInfo is left implicit); layers are identified by allocation-ordered
natural ids standing for Go pointers. -/
structure MethodLayerRec where
  funcValue : FuncVal
deriving DecidableEq

/-- `methodInfo`: name, declared method type, top layer and the map from a
layer to the layer beneath it. -/
structure MethodInfo where
  name : String
  methodType : FuncType
  topLayer : Nat
  nextLayer : List (Nat × Nat)
  layerRecs : List (Nat × MethodLayerRec)
deriving DecidableEq

/-- `getNextLayer`: the layer one step toward the bottom, `none` (Go nil)
when the given layer is the bottom layer. -/
def MethodInfo.getNextLayer (mi : MethodInfo) (l : Nat) : Option Nat :=
  lookupA mi.nextLayer l

/-- `addMethodLayer`: allocates a fresh layer for `val`, points it at the
previous top and makes it the new top (the collection-level `addLayer`
write to the by-function table is performed by the caller here). -/
def MethodInfo.addMethodLayer (mi : MethodInfo) (fresh : Nat) (val : FuncVal) :
    MethodInfo :=
  { mi with
    nextLayer := setA mi.nextLayer fresh mi.topLayer
    topLayer := fresh
    layerRecs := setA mi.layerRecs fresh ⟨val⟩ }

/-- `methodsCollection`: methodInfo by name, layer by function value, and
the bootstrapped flag. -/
structure MethodsCollection where
  cache : List (String × MethodInfo)
  cacheByFunc : List (FuncVal × Nat)
  bootstrapped : Bool
deriving DecidableEq

/-- The fragment of `modelInfo` the method registry uses. -/
structure MModelInfo where
  name : String
  methods : MethodsCollection
deriving DecidableEq

/-- The model registry (read contract of the catalog collaborator) plus
the allocation counter for layer ids. -/
structure MethodRegistry where
  models : List (String × MModelInfo)
  nextLayerId : Nat
deriving DecidableEq

/-- `newMethodInfo`: a methodInfo whose sole (top = bottom) layer is the
given function; fatal unless the function's first argument type is
`RecordSet`. -/
def newMethodInfo (methodName : String) (val : FuncVal) (fresh : Nat) :
    Except String MethodInfo :=
  match val.fnTy.ins with
  | [] => .error "Function must have `RecordSet` as first argument to be used as method."
  | t0 :: _ =>
    if t0 ≠ recordSetTypeId then
      .error "Function must have `RecordSet` as first argument to be used as method."
    else
      .ok { name := methodName
            methodType := val.fnTy
            topLayer := fresh
            nextLayer := []
            layerRecs := [(fresh, ⟨val⟩)] }

/-- `DeclareMethod`: registers `fnct` as a new layer of
`(modelName, methodName)`, following the source's check order: unknown
model, bootstrapped collection, non-function value, signature mismatch. -/
def DeclareMethod (reg : MethodRegistry) (modelName methodName : String)
    (fnct : GoValue) : Except String MethodRegistry :=
  match lookupA reg.models modelName with
  | none => .error "Unknown model"
  | some mi =>
    if mi.methods.bootstrapped then
      .error "CreateMethod must be run before BootStrap"
    else
      match fnct with
      | .nonFunc => .error "fnct parameter must be a function"
      | .func val =>
        let fresh := reg.nextLayerId
        match lookupA mi.methods.cache methodName with
        | some methInfo =>
          if methInfo.methodType ≠ val.fnTy then
            .error "Function signature does not match"
          else
            let methInfo' := methInfo.addMethodLayer fresh val
            let mc' := { mi.methods with
              cache := setA mi.methods.cache methodName methInfo'
              cacheByFunc := setA mi.methods.cacheByFunc val fresh }
            .ok { models := setA reg.models modelName { mi with methods := mc' }
                  nextLayerId := fresh + 1 }
        | none =>
          match newMethodInfo methodName val fresh with
          | .error e => .error e
          | .ok methInfo =>
            let mc' := { mi.methods with
              cache := setA mi.methods.cache methodName methInfo
              cacheByFunc := setA mi.methods.cacheByFunc val methInfo.topLayer }
            .ok { models := setA reg.models modelName { mi with methods := mc' }
                  nextLayerId := fresh + 1 }

/-- Sequence of DeclareMethod registrations for one method. -/
def declareAll (reg : MethodRegistry) (modelName methodName : String) :
    List GoValue → Except String MethodRegistry
  | [] => .ok reg
  | f :: fs =>
    match DeclareMethod reg modelName methodName f with
    | .error e => .error e
    | .ok reg' => declareAll reg' modelName methodName fs

/-- `WalksTo nl st ids`: starting from the optional layer `st` and
repeatedly taking the next layer in `nl`, the walk visits exactly the
layers `ids` in order and then reaches `none`. -/
inductive WalksTo (nl : List (Nat × Nat)) : Option Nat → List Nat → Prop where
  | nil : WalksTo nl none []
  | cons {l : Nat} {ids : List Nat} :
      WalksTo nl (lookupA nl l) ids → WalksTo nl (some l) (l :: ids)

/-- The layer ids allocated by `n` registrations starting at `b`, newest
first: `[b+n-1, ..., b]`. -/
def revIds (b n : Nat) : List Nat :=
  (List.range n).reverse.map (fun j => b + j)

/-- The registry state reached after `k ≥ 1` registrations of the method
`methodName` of type `T` on `modelName`, the first allocation having
taken layer id `b`: the chain's top is the newest layer `b + (k-1)`, all
chain pointers stay below the allocation counter, and walking from the
top visits exactly the `k` allocated layers, newest first. -/
def chainState (reg : MethodRegistry) (modelName methodName : String)
    (T : FuncType) (b k : Nat) : Prop :=
  reg.nextLayerId = b + k ∧
  ∃ mi methInfo,
    lookupA reg.models modelName = some mi ∧
    mi.methods.bootstrapped = false ∧
    lookupA mi.methods.cache methodName = some methInfo ∧
    methInfo.methodType = T ∧
    methInfo.topLayer = b + (k - 1) ∧
    (∀ p ∈ methInfo.nextLayer, p.1 < b + k ∧ p.2 < b + k) ∧
    WalksTo methInfo.nextLayer (some methInfo.topLayer) (revIds b k)

/-! ## Views collection (ir package) -/

/-- The fields of `View` relevant to registration and retrieval. -/
structure View where
  id : String
  name : String
  model : String
  vtype : String
  priority : Nat
deriving DecidableEq

/-- `ViewsCollection`: views by id plus the per-model priority-ordered
slices. -/
structure ViewsCollection where
  views : List (String × View)
  orderedViews : List (String × List View)
deriving DecidableEq

/-- Go's `int8(i)` conversion (wrapping). -/
def int8cast (i : Nat) : Int :=
  (((i + 128) % 256 : Nat) : Int) - 128

/-- The index loop of AddView: `index` starts at 0; for each element it is
set to `int8(i)` and the loop breaks at the first element whose priority
is at least the new view's priority. -/
def addViewIndexAux : List View → Nat → Nat → Int → Int
  | [], _, _, idx => idx
  | v :: vs, p, i, _ =>
    let idx := int8cast i
    if v.priority ≥ p then idx else addViewIndexAux vs p (i + 1) idx

def addViewIndex (l : List View) (p : Nat) : Int :=
  addViewIndexAux l p 0 0

/-- `AddView`: records the view by id and splices it into the model's
ordered slice at the computed index; a negative (wrapped) index is a
runtime slice-bounds error, as in Go. -/
def AddView (vc : ViewsCollection) (v : View) : Except String ViewsCollection :=
  let cur := (lookupA vc.orderedViews v.model).getD []
  let idx := addViewIndex cur v.priority
  if idx < 0 then .error "slice bounds out of range"
  else
    let n := idx.toNat
    .ok { views := setA vc.views v.id v
          orderedViews := setA vc.orderedViews v.model
            (cur.take n ++ v :: cur.drop n) }

/-- `GetFirstViewForModel`: the first view of the requested type in the
model's ordered slice; fatal when there is none. -/
def GetFirstViewForModel (vc : ViewsCollection) (model vtype : String) :
    Except String View :=
  match ((lookupA vc.orderedViews model).getD []).find? (fun v => v.vtype == vtype) with
  | some v => .ok v
  | none => .error "No view of this type in model"

/-! ## Concrete instances used by theorems and witnesses -/

/-- A query over the given model with the given condition (the shape
`newQuery` plus a condition produces). -/
def mkQuery (mi : ModelInfo) (c : Condition) : Query :=
  { recordSet := { mi := mi }
    cond := c
    related := []
    limit := 0
    offset := 0
    groups := []
    orders := []
    distinct := false }

/-- Model with three scalar fields `A`, `B`, `C` on table `tbl`. -/
def miABC : ModelInfo :=
  .mk "m" "tbl"
    [("A", .mk "A" false none), ("B", .mk "B" false none),
     ("C", .mk "C" false none)]

/-- The condition `(A=1 OR B=2) AND NOT C=3`. -/
def condC2 : Condition :=
  .mk
    [ .mk [] "" (.int 0)
        (.mk [ .mk ["A"] "=" (.int 1) (.mk []) false false false,
               .mk ["B"] "=" (.int 2) (.mk []) true false false ])
        false false true,
      .mk ["C"] "=" (.int 3) (.mk []) false true false ]

def qC2 : Query := mkQuery miABC condC2

/-- Related model with two scalar fields `a`, `b` on table `t2`. -/
def miRel : ModelInfo :=
  .mk "m2" "t2" [("a", .mk "a" false none), ("b", .mk "b" false none)]

/-- Root model with a required relation `r` to `miRel`. -/
def miRoot : ModelInfo :=
  .mk "m1" "t1" [("r", .mk "r" true (some miRel))]

def qJoin : Query := mkQuery miRoot (.mk [])

/-- Model with storage columns `name` and `age` on table `tbl`. -/
def miNameAge : ModelInfo :=
  .mk "m" "tbl"
    [("name", .mk "name" false none), ("age", .mk "age" false none)]

def qNameAge : Query := mkQuery miNameAge (.mk [])

/-- A model with an empty field catalog on table `t0`. -/
def miEmptyCat : ModelInfo := .mk "m0" "t0" []

def qEmptyCat : Query := mkQuery miEmptyCat (.mk [])

/-- A leaf condValue on the unknown field `x`. -/
def cvUnknownField : CondValue :=
  .mk ["x"] "=" (.int 1) (.mk []) false false false

/-- A fresh methods collection. -/
def mcFresh : MethodsCollection :=
  { cache := [], cacheByFunc := [], bootstrapped := false }

/-- Registry with one model `m` whose methods collection is fresh. -/
def regFresh : MethodRegistry :=
  { models := [("m", { name := "m", methods := mcFresh })], nextLayerId := 0 }

/-- Registry with one model `m` whose methods collection is bootstrapped. -/
def regBoot : MethodRegistry :=
  { models := [("m", { name := "m", methods := { mcFresh with bootstrapped := true } })]
    nextLayerId := 0 }

/-- A method type: `RecordSet` first argument, one more input, one output. -/
def tyMeth : FuncType := { ins := [recordSetTypeId, 1], outTy := 5 }

/-- A methodInfo for `meth` already declared with type `tyMeth`. -/
def methInfoExisting : MethodInfo :=
  { name := "meth"
    methodType := tyMeth
    topLayer := 0
    nextLayer := []
    layerRecs := [(0, ⟨⟨7, tyMeth⟩⟩)] }

/-- Registry with one model `m` on which `meth` is declared already. -/
def regExisting : MethodRegistry :=
  { models := [("m",
      { name := "m"
        methods :=
          { cache := [("meth", methInfoExisting)]
            cacheByFunc := [(⟨7, tyMeth⟩, 0)]
            bootstrapped := false } })]
    nextLayerId := 1 }

/-- Two views on model `m` of type `form`, priorities 1 and 2. -/
def viewP1 : View := { id := "v1", name := "V1", model := "m", vtype := "form", priority := 1 }

def viewP2 : View := { id := "v2", name := "V2", model := "m", vtype := "form", priority := 2 }

/-! ## Helper lemmas -/

theorem countNodesVal_pos (v : CondValue) : 0 < countNodesVal v := by
  cases v with
  | mk e o a c io inot ic =>
    cases ic <;> simp [countNodesVal]

theorem resolveFieldMap_ok_forall₂ (fields : List (String × FieldInfo)) :
    ∀ (data : FieldMap) (cv : List (String × SQLVal)),
      resolveFieldMap fields data = .ok cv →
      List.Forall₂ (fun kv c => ∃ fi, fieldsGet fields kv.1 = some fi ∧
        c = (fi.json, kv.2)) data cv := by
  intro data
  induction data with
  | nil =>
    intro cv h
    simp [resolveFieldMap] at h
    subst h
    exact List.Forall₂.nil
  | cons kv rest ih =>
    intro cv h
    obtain ⟨k, v⟩ := kv
    simp only [resolveFieldMap] at h
    cases hfg : fieldsGet fields k with
    | none => rw [hfg] at h; simp at h
    | some fi =>
      rw [hfg] at h
      cases hres : resolveFieldMap fields rest with
      | error e => rw [hres] at h; simp at h
      | ok tl =>
        rw [hres] at h
        simp at h
        rw [← h]
        exact List.Forall₂.cons ⟨fi, hfg, rfl⟩ (ih tl hres)

theorem resolveFieldMap_error_iff (fields : List (String × FieldInfo)) :
    ∀ data : FieldMap,
      (∃ e, resolveFieldMap fields data = .error e) ↔
      ∃ kv ∈ data, fieldsGet fields kv.1 = none := by
  intro data
  induction data with
  | nil => simp [resolveFieldMap]
  | cons kv rest ih =>
    obtain ⟨k, v⟩ := kv
    simp only [resolveFieldMap]
    cases hfg : fieldsGet fields k with
    | none => simp [hfg]
    | some fi =>
      cases hres : resolveFieldMap fields rest with
      | error e =>
        simp only [hfg]
        constructor
        · intro _
          rcases ih.mp ⟨e, hres⟩ with ⟨kv2, hm, hn⟩
          exact ⟨kv2, by simp [hm], hn⟩
        · intro _; exact ⟨e, rfl⟩
      | ok tl =>
        simp only [hfg]
        constructor
        · rintro ⟨e, he⟩; simp at he
        · rintro ⟨kv2, hm, hn⟩
          rcases List.mem_cons.mp hm with h1 | h2
          · rw [h1] at hn; simp at hn; rw [hn] at hfg; simp at hfg
          · rcases ih.mpr ⟨kv2, h2, hn⟩ with ⟨e, he⟩
            rw [he] at hres; simp at hres

theorem sqlWhereClause_of_empty (q : Query) (h : q.cond = .mk []) :
    sqlWhereClause q = .ok ("", []) := by
  simp [sqlWhereClause, h, conditionSQLClause, Condition.IsEmpty]

theorem quote_sep_alias_ne (x y : String) :
    quoteTableName (x ++ sqlSep ++ y) ≠ quoteTableName x := by
  intro h
  have hlen := congrArg String.length h
  simp [quoteTableName, sqlSep, String.length_append] at hlen
  have h2 : ("__" : String).length = 2 := rfl
  omega

theorem generateTableJoinsAux_alias (es : List String) :
    ∀ (mi : ModelInfo) (ca pa : String) (tl : List TableJoin),
      generateTableJoinsAux mi ca pa es = .ok tl →
      ∀ j ∈ tl, ∃ t, j.aliasName = quoteTableName t := by
  induction es with
  | nil =>
    intro mi ca pa tl h j hj
    simp [generateTableJoinsAux] at h
    subst h
    simp at hj
  | cons e rest ih =>
    intro mi ca pa tl h j hj
    rw [generateTableJoinsAux] at h
    split at h
    · simp at h
    · split at h
      · simp at h
        subst h
        simp at hj
      · split at h
        · simp at h
          subst h
          simp at hj
        · simp only [] at h
          split at h
          · simp at h
          · rename_i rm hrel x tl2 heq
            simp at h
            subst h
            rcases List.mem_cons.mp hj with hj | hj
            · exact ⟨ca ++ sqlSep ++ rm.tableName, by rw [hj]⟩
            · exact ih rm _ _ tl2 heq j hj

theorem generateTableJoins_alias (q : Query) (es : List String)
    (js : List TableJoin) (h : generateTableJoins q es = .ok js) :
    ∀ j ∈ js, ∃ t, j.aliasName = quoteTableName t := by
  simp only [generateTableJoins] at h
  cases haux : generateTableJoinsAux q.mi q.mi.tableName
      (quoteTableName q.mi.tableName) es with
  | error e => rw [haux] at h; simp at h
  | ok tl =>
    rw [haux] at h
    simp at h
    subst h
    intro j hj
    rcases List.mem_cons.mp hj with h1 | h2
    · exact ⟨q.mi.tableName, by rw [h1]⟩
    · exact generateTableJoinsAux_alias es q.mi q.mi.tableName _ tl haux j h2

theorem joinedFieldExpression_head (q : Query) (es : List String) (f : String)
    (h : joinedFieldExpression q es false = .ok f) :
    ∃ t, f.data = '"' :: t := by
  cases hg : generateTableJoins q es with
  | error e => simp [joinedFieldExpression, hg] at h
  | ok joins =>
    simp only [joinedFieldExpression, hg] at h
    cases hl : joins.getLast? with
    | none => rw [hl] at h; simp at h
    | some j =>
      rw [hl] at h
      cases he : es.get? (joins.length - 1) with
      | none => rw [he] at h; simp at h
      | some e =>
        rw [he] at h
        simp at h
        have hj : j ∈ joins := by
          have hmem : j ∈ joins.getLast? := Option.mem_def.mpr hl
          rcases List.mem_getLast?_eq_getLast hmem with ⟨hne, heq⟩
          rw [heq]
          exact List.getLast_mem hne
        rcases generateTableJoins_alias q es joins hg j hj with ⟨t, ht⟩
        refine ⟨t.data ++ '"' :: '.' :: e.data, ?_⟩
        rw [← h, ht]
        simp [quoteTableName, String.data_append]

/-! ## Claim theorems -/

/-- C2: compiling a Query whose condition is `(A=1 OR B=2) AND NOT C=3`
(a sub-condition of two OR-joined leaves followed by an AND NOT leaf)
produces WHERE text whose structure, ignoring whitespace, is
`(A = ? OR B = ?) AND NOT C = ?` — the columns rendered as qualified
`"tbl".A` etc. — with the positional arguments `[1, 2, 3]` in order. -/
theorem condition_roundtrip_or_and_not :
    ∃ sql,
      sqlWhereClause qC2 = .ok (sql, [SQLVal.int 1, SQLVal.int 2, SQLVal.int 3]) ∧
      stripSpaces sql =
        stripSpaces "WHERE (\"tbl\".A = ? OR \"tbl\".B = ?) AND NOT \"tbl\".C = ?" := by
  refine ⟨"WHERE (\"tbl\".A = ? OR \"tbl\".B = ? ) AND NOT \"tbl\".C = ? ", ?_, by rfl⟩
  simp only [sqlWhereClause, conditionSQLClause, condListSQLClause, condValueSQLClause,
    qC2, mkQuery, miABC, condC2, Condition.IsEmpty, jsonizeExpr, joinedFieldExpression,
    generateTableJoins, generateTableJoinsAux, fieldsGet, lookupA, operatorSQL,
    quoteTableName, Query.mi, ModelInfo.tableName, ModelInfo.fields, FieldInfo.json,
    FieldInfo.relatedModel]
  rfl

/-- C4: on a model whose methods collection is bootstrapped, every
DeclareMethod call fails with the bootstrap error; the check precedes any
mutation, so the registry is returned unchanged inside the error path. -/
theorem declareMethod_after_bootstrap_fails (reg : MethodRegistry)
    (modelName methodName : String) (fnct : GoValue) (mi : MModelInfo)
    (hm : lookupA reg.models modelName = some mi)
    (hb : mi.methods.bootstrapped = true) :
    DeclareMethod reg modelName methodName fnct =
      .error "CreateMethod must be run before BootStrap" := by
  simp [DeclareMethod, hm, hb]

theorem declareMethod_after_bootstrap_fails_witness :
    DeclareMethod regBoot "m" "meth" GoValue.nonFunc =
      .error "CreateMethod must be run before BootStrap" :=
  declareMethod_after_bootstrap_fails regBoot "m" "meth" GoValue.nonFunc
    { name := "m", methods := { mcFresh with bootstrapped := true } } rfl rfl

/-- C5: on an existing methodInfo, declaring a layer whose function type
differs from the declared method type fails with the signature error
before any mutation of the chain or lookup tables. -/
theorem declareMethod_signature_mismatch_fails (reg : MethodRegistry)
    (modelName methodName : String) (mi : MModelInfo) (methInfo : MethodInfo)
    (v : FuncVal)
    (hm : lookupA reg.models modelName = some mi)
    (hb : mi.methods.bootstrapped = false)
    (hc : lookupA mi.methods.cache methodName = some methInfo)
    (ht : methInfo.methodType ≠ v.fnTy) :
    DeclareMethod reg modelName methodName (.func v) =
      .error "Function signature does not match" := by
  simp [DeclareMethod, hm, hb, hc, ht]

theorem declareMethod_signature_mismatch_fails_witness :
    DeclareMethod regExisting "m" "meth"
      (.func ⟨8, { ins := [recordSetTypeId], outTy := 5 }⟩) =
      .error "Function signature does not match" :=
  declareMethod_signature_mismatch_fails regExisting "m" "meth"
    { name := "m"
      methods :=
        { cache := [("meth", methInfoExisting)]
          cacheByFunc := [(⟨7, tyMeth⟩, 0)]
          bootstrapped := false } }
    methInfoExisting ⟨8, { ins := [recordSetTypeId], outTy := 5 }⟩
    rfl rfl rfl (by decide)

/-- C8: `IsEmpty` holds exactly on condition trees with zero leaf and zero
sub-condition nodes, and a Query whose condition is empty gets no WHERE
clause at all: `sqlWhereClause` returns the empty string and no
arguments. -/
theorem isEmpty_iff_no_nodes_and_empty_where (c : Condition) (q : Query)
    (h : q.cond.IsEmpty = true) :
    (Condition.IsEmpty c = true ↔ countNodes c = 0) ∧
    sqlWhereClause q = .ok ("", []) := by
  constructor
  · cases c with
    | mk ps =>
      cases ps with
      | nil => simp [Condition.IsEmpty, countNodes, countNodesList]
      | cons v vs =>
        simp [Condition.IsEmpty, countNodes, countNodesList]
        have := countNodesVal_pos v
        omega
  · rcases hc : q.cond with ⟨ps⟩
    rw [hc] at h
    simp [Condition.IsEmpty] at h
    simp [sqlWhereClause, hc, h, conditionSQLClause, Condition.IsEmpty]

theorem isEmpty_iff_no_nodes_and_empty_where_witness :
    (Condition.IsEmpty condC2 = true ↔ countNodes condC2 = 0) ∧
    sqlWhereClause qEmptyCat = .ok ("", []) :=
  isEmpty_iff_no_nodes_and_empty_where condC2 qEmptyCat rfl

/-- C3: a field path crossing exactly one relation yields exactly one
join node, flagged INNER exactly when the relation is required (so one
LEFT join when it is optional); two paths sharing the relation prefix add
no second join to the FROM clause (one alias, first occurrence wins); and
the last path segment never produces a join — in particular a
single-segment path ending on the relation field itself yields none. -/
theorem path_resolution_joins (q : Query) (m2 : ModelInfo)
    (r a b : String) (fi fa fb : FieldInfo)
    (hr : fieldsGet q.mi.fields r = some fi)
    (hrel : fi.relatedModel = some m2)
    (ha : fieldsGet m2.fields a = some fa)
    (hb : fieldsGet m2.fields b = some fb) :
    (generateTableJoins q [r, a] =
      .ok [{ tableName := quoteTableName q.mi.tableName
             aliasName := quoteTableName q.mi.tableName
             joined := false, innerJoin := false, field := ""
             otherTableAlias := "", otherField := "" },
           { tableName := quoteTableName m2.tableName
             aliasName := quoteTableName (q.mi.tableName ++ sqlSep ++ m2.tableName)
             joined := true, innerJoin := fi.required, field := "id"
             otherTableAlias := quoteTableName q.mi.tableName
             otherField := r }]) ∧
    tablesSQL q [[r, a], [r, b]] = tablesSQL q [[r, a]] ∧
    generateTableJoins q [r] =
      .ok [{ tableName := quoteTableName q.mi.tableName
             aliasName := quoteTableName q.mi.tableName
             joined := false, innerJoin := false, field := ""
             otherTableAlias := "", otherField := "" }] := by
  have h1 : generateTableJoins q [r, a] =
      .ok [{ tableName := quoteTableName q.mi.tableName
             aliasName := quoteTableName q.mi.tableName
             joined := false, innerJoin := false, field := ""
             otherTableAlias := "", otherField := "" },
           { tableName := quoteTableName m2.tableName
             aliasName := quoteTableName (q.mi.tableName ++ sqlSep ++ m2.tableName)
             joined := true, innerJoin := fi.required, field := "id"
             otherTableAlias := quoteTableName q.mi.tableName
             otherField := r }] := by
    simp [generateTableJoins, generateTableJoinsAux, hr, hrel, ha]
  have h2 : generateTableJoins q [r, b] =
      .ok [{ tableName := quoteTableName q.mi.tableName
             aliasName := quoteTableName q.mi.tableName
             joined := false, innerJoin := false, field := ""
             otherTableAlias := "", otherField := "" },
           { tableName := quoteTableName m2.tableName
             aliasName := quoteTableName (q.mi.tableName ++ sqlSep ++ m2.tableName)
             joined := true, innerJoin := fi.required, field := "id"
             otherTableAlias := quoteTableName q.mi.tableName
             otherField := r }] := by
    simp [generateTableJoins, generateTableJoinsAux, hr, hrel, hb]
  refine ⟨h1, ?_, ?_⟩
  · have hne := quote_sep_alias_ne q.mi.tableName m2.tableName
    simp [tablesSQL, tablesSQLAux, h1, h2, addJoins, hne]
  · simp [generateTableJoins, generateTableJoinsAux, hr]

theorem path_resolution_joins_witness :
    (generateTableJoins qJoin ["r", "a"] =
      .ok [{ tableName := "\"t1\"", aliasName := "\"t1\""
             joined := false, innerJoin := false, field := ""
             otherTableAlias := "", otherField := "" },
           { tableName := "\"t2\"", aliasName := "\"t1__t2\""
             joined := true, innerJoin := true, field := "id"
             otherTableAlias := "\"t1\"", otherField := "r" }]) ∧
    tablesSQL qJoin [["r", "a"], ["r", "b"]] = tablesSQL qJoin [["r", "a"]] ∧
    generateTableJoins qJoin ["r"] =
      .ok [{ tableName := "\"t1\"", aliasName := "\"t1\""
             joined := false, innerJoin := false, field := ""
             otherTableAlias := "", otherField := "" }] :=
  path_resolution_joins qJoin miRel "r" "a" "b"
    (.mk "r" true (some miRel)) (.mk "a" false none) (.mk "b" false none)
    rfl rfl rfl rfl

/-- C6: building an INSERT from a field-to-value map fails exactly when
the map is empty or some key is not a field of the model; otherwise it
yields `INSERT INTO <quoted-table> (<storage-columns>) VALUES (?, ..., ?)
RETURNING id` with one placeholder per entry, where the i-th column name
and the i-th argument come from the same map entry. -/
theorem insertQuery_spec (q : Query) (data : FieldMap) :
    ((∃ e, insertQuery q data = .error e) ↔
      (data = [] ∨ ∃ kv ∈ data, fieldsGet q.mi.fields kv.1 = none)) ∧
    (∀ cv, data ≠ [] → resolveFieldMap q.mi.fields data = .ok cv →
      insertQuery q data =
        .ok ("INSERT INTO " ++ quoteTableName q.mi.tableName ++ " ("
            ++ String.intercalate ", " (cv.map Prod.fst) ++ ") VALUES ("
            ++ placeholders data.length ++ ") RETURNING id",
          cv.map Prod.snd) ∧
      List.Forall₂ (fun kv c => ∃ fi, fieldsGet q.mi.fields kv.1 = some fi ∧
        c = (fi.json, kv.2)) data cv) := by
  constructor
  · cases hd : data with
    | nil => simp [insertQuery]
    | cons kv rest =>
      cases hres : resolveFieldMap q.mi.fields (kv :: rest) with
      | error e =>
        simp only [insertQuery, List.isEmpty_cons, hres]
        constructor
        · intro _
          rcases (resolveFieldMap_error_iff q.mi.fields (kv :: rest)).mp
            ⟨e, hres⟩ with ⟨kv2, hm, hn⟩
          exact Or.inr ⟨kv2, hm, hn⟩
        · intro _; exact ⟨e, by simp⟩
      | ok cv =>
        simp only [insertQuery, List.isEmpty_cons, hres]
        constructor
        · rintro ⟨e, he⟩; simp at he
        · rintro (h1 | ⟨kv2, hm, hn⟩)
          · simp at h1
          · rcases (resolveFieldMap_error_iff q.mi.fields (kv :: rest)).mpr
              ⟨kv2, hm, hn⟩ with ⟨e, he⟩
            rw [he] at hres
            simp at hres
  · intro cv hne hres
    have hf := resolveFieldMap_ok_forall₂ q.mi.fields data cv hres
    have hlen : data.length = cv.length := hf.length_eq
    refine ⟨?_, hf⟩
    cases data with
    | nil => exact absurd rfl hne
    | cons kv rest =>
      simp only [insertQuery, List.isEmpty_cons, hres]
      simp [placeholders, hlen]

theorem insertQuery_spec_witness :
    insertQuery qNameAge [("name", SQLVal.str "Bob"), ("age", SQLVal.int 30)] =
      .ok ("INSERT INTO \"tbl\" (name, age) VALUES (?, ?) RETURNING id",
        [SQLVal.str "Bob", SQLVal.int 30]) := by
  have h := ((insertQuery_spec qNameAge
    [("name", SQLVal.str "Bob"), ("age", SQLVal.int 30)]).2
    [("name", SQLVal.str "Bob"), ("age", SQLVal.int 30)]
    (by simp) rfl).1
  exact h

/-- C7: for every Query and non-empty field map whose keys all resolve,
updateQuery builds its WHERE clause with the same compiler used for
SELECT (`sqlWhereClause`) and its positional arguments are exactly the
update values followed by the WHERE-clause arguments. -/
theorem updateQuery_args_order (q : Query) (data : FieldMap)
    (cv : List (String × SQLVal)) (w : String) (wa : List SQLVal)
    (hne : data ≠ [])
    (hres : resolveFieldMap q.mi.fields data = .ok cv)
    (hw : sqlWhereClause q = .ok (w, wa)) :
    updateQuery q data =
      .ok ("UPDATE " ++ quoteTableName q.mi.tableName ++ " SET "
        ++ String.intercalate ", " (cv.map (fun c => c.1 ++ " = ?")) ++ " " ++ w,
        cv.map Prod.snd ++ wa) := by
  cases data with
  | nil => exact absurd rfl hne
  | cons kv rest =>
    simp only [updateQuery, List.isEmpty_cons, hres, hw]
    simp

theorem updateQuery_args_order_witness :
    updateQuery qNameAge [("name", SQLVal.str "Al")] =
      .ok ("UPDATE \"tbl\" SET name = ? ", [SQLVal.str "Al"]) := by
  have h := updateQuery_args_order qNameAge [("name", SQLVal.str "Al")]
    [("name", SQLVal.str "Al")] "" [] (by simp) rfl
    (sqlWhereClause_of_empty qNameAge rfl)
  exact h

/-- C9 (code bug): adding a priority-1 view and then a priority-2 view of
the same model and type leaves the ordered slice as `[2, 1]` — the
insertion loop never sets the index past the last element, so a view
whose priority exceeds every present priority is inserted before the last
element instead of appended — and GetFirstViewForModel then returns the
priority-2 view although a priority-1 view of that type exists. -/
theorem addView_priority_order_bug :
    ∃ vc1 vc2,
      AddView { views := [], orderedViews := [] } viewP1 = .ok vc1 ∧
      AddView vc1 viewP2 = .ok vc2 ∧
      ((lookupA vc2.orderedViews "m").getD []).map View.priority = [2, 1] ∧
      GetFirstViewForModel vc2 "m" "form" = .ok viewP2 := by
  exact ⟨_, _, rfl, rfl, rfl, rfl⟩

/-- C10 (amended): serializing a condValue in first position
(`first = true`) emits no leading `AND ` or `OR ` connective, and the
first node's combinator tag has no effect on the outcome at all —
contrary to the function's doc comment, an `isOr` tag on a first clause
triggers no panic: the result, success or failure alike, is identical
whether `isOr` is true or false. (Serialization itself can still fail for
reasons independent of the tag, such as an unknown field — which is what
refutes the claim's blanket `does not panic`.) -/
theorem condValue_first_no_connective (q : Query) (cv : CondValue) :
    condValueSQLClause q (cv.setOr true) true =
      condValueSQLClause q (cv.setOr false) true ∧
    ∀ s a, condValueSQLClause q cv true = .ok (s, a) →
      strBeginsWith "AND " s = false ∧ strBeginsWith "OR " s = false := by
  obtain ⟨e, o, arg, c, io, inot, ic⟩ := cv
  constructor
  · simp [CondValue.setOr, condValueSQLClause]
  · intro s a h
    cases ic with
    | true =>
      cases hc : conditionSQLClause q c with
      | error e2 =>
        rw [condValueSQLClause] at h
        simp [hc] at h
      | ok p =>
        obtain ⟨ss, sa⟩ := p
        rw [condValueSQLClause] at h
        simp [hc] at h
        rw [← h.1]
        cases inot <;>
          simp [strBeginsWith, listBeginsWith, String.data_append]
    | false =>
      cases hj : jsonizeExpr q.mi e with
      | error e2 =>
        rw [condValueSQLClause] at h
        simp [hj] at h
      | ok jexprs =>
        cases hf : joinedFieldExpression q jexprs false with
        | error e2 =>
          rw [condValueSQLClause] at h
          simp [hj, hf] at h
        | ok fieldStr =>
          rcases joinedFieldExpression_head q jexprs fieldStr hf with ⟨t, ht⟩
          rw [condValueSQLClause] at h
          simp [hj, hf] at h
          rw [← h.1]
          cases inot <;>
            simp [strBeginsWith, listBeginsWith, String.data_append, ht]

theorem condValue_first_no_connective_witness :
    condValueSQLClause qC2
        ((CondValue.mk ["A"] "=" (SQLVal.int 1) (.mk []) false false false).setOr true) true =
      condValueSQLClause qC2
        ((CondValue.mk ["A"] "=" (SQLVal.int 1) (.mk []) false false false).setOr false) true ∧
    strBeginsWith "AND " "\"tbl\".A = ? " = false ∧
    strBeginsWith "OR " "\"tbl\".A = ? " = false := by
  have h := condValue_first_no_connective qC2
    (CondValue.mk ["A"] "=" (SQLVal.int 1) (.mk []) false false false)
  refine ⟨h.1, h.2 "\"tbl\".A = ? " [SQLVal.int 1] ?_⟩
  simp [condValueSQLClause, jsonizeExpr, joinedFieldExpression, generateTableJoins,
    generateTableJoinsAux, fieldsGet, lookupA, operatorSQL, quoteTableName,
    qC2, mkQuery, miABC, Query.mi, ModelInfo.tableName, ModelInfo.fields,
    FieldInfo.json, FieldInfo.relatedModel]

/-- C10 (counterexample): the claim as stated is false at a concrete
input — serializing a first-position condValue can panic: on a model
with an empty field catalog, a leaf on the unknown field `x` makes
condValueSQLClause fail fatally, so `does not panic` does not hold for
every condValue and Query. -/
theorem condValue_first_can_panic :
    condValueSQLClause qEmptyCat cvUnknownField true =
      .error "Unknown expression for model" := by
  simp [condValueSQLClause, cvUnknownField, jsonizeExpr, qEmptyCat, mkQuery,
    miEmptyCat, fieldsGet, lookupA, Query.mi, ModelInfo.fields]


theorem lookupA_setA_self {α β : Type} [DecidableEq α] (l : List (α × β))
    (k : α) (v : β) : lookupA (setA l k v) k = some v := by
  simp [setA, lookupA]

theorem eraseKey_of_forall_ne {β : Type} (l : List (Nat × β)) (k : Nat)
    (h : ∀ p ∈ l, p.1 ≠ k) : eraseKey l k = l := by
  induction l with
  | nil => rfl
  | cons p rest ih =>
    obtain ⟨a, b2⟩ := p
    have ha : a ≠ k := h (a, b2) (by simp)
    simp [eraseKey, ha]
    exact ih (fun p hp => h p (by simp [hp]))

theorem WalksTo_extend (nl : List (Nat × Nat)) (f z : Nat) :
    ∀ (st : Option Nat) (ids : List Nat), WalksTo nl st ids →
      (∀ e ∈ ids, e ≠ f) → WalksTo ((f, z) :: nl) st ids := by
  intro st ids hw
  induction hw with
  | nil => intro _; exact WalksTo.nil
  | cons hsub ih =>
    intro hne
    rename_i l ids2
    refine WalksTo.cons ?_
    have hlf : l ≠ f := hne l (by simp)
    have hl : lookupA ((f, z) :: nl) l = lookupA nl l := by
      simp [lookupA, Ne.symm hlf]
    rw [hl]
    exact ih (fun e he => hne e (by simp [he]))

theorem revIds_length (b n : Nat) : (revIds b n).length = n := by
  simp [revIds]

theorem revIds_nodup (b n : Nat) : (revIds b n).Nodup := by
  refine List.Nodup.map (fun x y hxy => by omega) ?_
  exact List.nodup_reverse.mpr (List.nodup_range n)

theorem revIds_succ (b n : Nat) : revIds b (n + 1) = (b + n) :: revIds b n := by
  simp [revIds, List.range_succ]

theorem mem_revIds_lt (b n x : Nat) (hx : x ∈ revIds b n) : x < b + n := by
  simp [revIds] at hx
  rcases hx with ⟨j, hj, rfl⟩
  omega

theorem chainState_step (reg : MethodRegistry) (modelName methodName : String)
    (T : FuncType) (b k : Nat) (v : FuncVal)
    (hT : v.fnTy = T)
    (hcs : chainState reg modelName methodName T b k) :
    ∃ reg', DeclareMethod reg modelName methodName (.func v) = .ok reg' ∧
      chainState reg' modelName methodName T b (k + 1) := by
  obtain ⟨hnext, mi, methInfo, hm, hb, hc, hty, htop, hbound, hwalk⟩ := hcs
  have herase : eraseKey methInfo.nextLayer (b + k) = methInfo.nextLayer :=
    eraseKey_of_forall_ne _ _ (fun p hp => by have := (hbound p hp).1; omega)
  have hdm : DeclareMethod reg modelName methodName (.func v) =
      .ok { models := setA reg.models modelName
              { mi with methods :=
                { mi.methods with
                  cache := setA mi.methods.cache methodName
                    (methInfo.addMethodLayer (b + k) v)
                  cacheByFunc := setA mi.methods.cacheByFunc v (b + k) } }
            nextLayerId := b + k + 1 } := by
    simp [DeclareMethod, hm, hb, hc, hty, hT, hnext]
  refine ⟨_, hdm, by exact Nat.add_assoc b k 1, ?_⟩
  refine ⟨_, _, lookupA_setA_self _ _ _, by simp [hb], lookupA_setA_self _ _ _,
    ?_, ?_, ?_, ?_⟩
  · simp [MethodInfo.addMethodLayer, hty]
  · simp [MethodInfo.addMethodLayer]
  · intro p hp
    simp only [MethodInfo.addMethodLayer, setA, herase] at hp
    rcases List.mem_cons.mp hp with h1 | h2
    · rw [h1]; simp; omega
    · have := hbound p h2; omega
  · simp only [MethodInfo.addMethodLayer, setA, herase]
    rw [revIds_succ]
    refine WalksTo.cons ?_
    have hlk : lookupA ((b + k, methInfo.topLayer) :: methInfo.nextLayer) (b + k) =
        some methInfo.topLayer := by simp [lookupA]
    rw [hlk, htop]
    refine WalksTo_extend _ _ _ _ _ ?_ ?_
    · rw [← htop]; exact hwalk
    · intro e he
      have := mem_revIds_lt b k e he
      omega

theorem chainState_init (reg : MethodRegistry) (modelName methodName : String)
    (T : FuncType) (v : FuncVal) (mi : MModelInfo)
    (hm : lookupA reg.models modelName = some mi)
    (hb : mi.methods.bootstrapped = false)
    (hc : lookupA mi.methods.cache methodName = none)
    (hT : v.fnTy = T)
    (hins : T.ins.head? = some recordSetTypeId) :
    ∃ reg', DeclareMethod reg modelName methodName (.func v) = .ok reg' ∧
      chainState reg' modelName methodName T reg.nextLayerId 1 := by
  cases hins2 : T.ins with
  | nil => rw [hins2] at hins; simp at hins
  | cons t0 ts =>
    rw [hins2] at hins
    simp at hins
    have hnm : newMethodInfo methodName v reg.nextLayerId =
        .ok { name := methodName
              methodType := v.fnTy
              topLayer := reg.nextLayerId
              nextLayer := []
              layerRecs := [(reg.nextLayerId, ⟨v⟩)] } := by
      simp [newMethodInfo, hT, hins2, hins]
    have hdm : DeclareMethod reg modelName methodName (.func v) =
        .ok { models := setA reg.models modelName
                { mi with methods :=
                  { mi.methods with
                    cache := setA mi.methods.cache methodName
                      { name := methodName
                        methodType := v.fnTy
                        topLayer := reg.nextLayerId
                        nextLayer := []
                        layerRecs := [(reg.nextLayerId, ⟨v⟩)] }
                    cacheByFunc := setA mi.methods.cacheByFunc v reg.nextLayerId } }
              nextLayerId := reg.nextLayerId + 1 } := by
      simp [DeclareMethod, hm, hb, hc, hnm]
    refine ⟨_, hdm, rfl, ?_⟩
    refine ⟨_, _, lookupA_setA_self _ _ _, by simp [hb], lookupA_setA_self _ _ _,
      hT, by simp, by simp, ?_⟩
    have h1 : revIds reg.nextLayerId 1 = [reg.nextLayerId] := by
      simp [revIds, List.range_succ]
    rw [h1]
    show WalksTo [] (some reg.nextLayerId) [reg.nextLayerId]
    exact WalksTo.cons WalksTo.nil

theorem chainState_fold (modelName methodName : String) (T : FuncType) :
    ∀ (fs : List FuncVal) (reg : MethodRegistry) (b k : Nat),
      (∀ v ∈ fs, v.fnTy = T) →
      chainState reg modelName methodName T b k →
      ∃ reg', declareAll reg modelName methodName (fs.map GoValue.func) = .ok reg' ∧
        chainState reg' modelName methodName T b (k + fs.length) := by
  intro fs
  induction fs with
  | nil =>
    intro reg b k _ hcs
    exact ⟨reg, rfl, by simpa using hcs⟩
  | cons v rest ih =>
    intro reg b k hall hcs
    rcases chainState_step reg modelName methodName T b k v
      (hall v (by simp)) hcs with ⟨reg1, hd, hcs1⟩
    rcases ih reg1 b (k + 1) (fun w hw => hall w (by simp [hw])) hcs1 with
      ⟨reg', hrest, hcs'⟩
    refine ⟨reg', ?_, ?_⟩
    · simp [declareAll, hd, hrest]
    · have harith : k + 1 + rest.length = k + (rest.length + 1) := by omega
      rw [harith] at hcs'
      simpa using hcs'

/-- C1: for every sequence of successful DeclareMethod registrations of
one method name on one model (fresh model, not bootstrapped, all layers
of the declared type whose first argument is RecordSet), the resulting
layer chain is a simple singly-linked list: starting at `topLayer` and
repeatedly applying `getNextLayer` (that is, looking up `nextLayer`)
visits every registered layer exactly once, newest-registered first, and
reaches `none` exactly after the bottom, originally-declared layer; the
chain's length equals the number of registrations. -/
theorem declareMethod_chain_walk (reg : MethodRegistry)
    (modelName methodName : String) (T : FuncType) (fs : List FuncVal)
    (mi : MModelInfo)
    (hm : lookupA reg.models modelName = some mi)
    (hb : mi.methods.bootstrapped = false)
    (habs : lookupA mi.methods.cache methodName = none)
    (hins : T.ins.head? = some recordSetTypeId)
    (hall : ∀ v ∈ fs, v.fnTy = T)
    (hne : fs ≠ []) :
    ∃ reg' mi' methInfo,
      declareAll reg modelName methodName (fs.map GoValue.func) = .ok reg' ∧
      lookupA reg'.models modelName = some mi' ∧
      lookupA mi'.methods.cache methodName = some methInfo ∧
      WalksTo methInfo.nextLayer (some methInfo.topLayer)
        (revIds reg.nextLayerId fs.length) ∧
      (revIds reg.nextLayerId fs.length).Nodup ∧
      (revIds reg.nextLayerId fs.length).length = fs.length := by
  cases fs with
  | nil => exact absurd rfl hne
  | cons v rest =>
    rcases chainState_init reg modelName methodName T v mi hm hb habs
      (hall v (by simp)) hins with ⟨reg1, hd, hcs1⟩
    rcases chainState_fold modelName methodName T rest reg1 reg.nextLayerId 1
      (fun w hw => hall w (by simp [hw])) hcs1 with ⟨reg', hrest, hcs'⟩
    obtain ⟨hnext, mi', methInfo, hm', hb', hc', hty', htop', hbound', hwalk'⟩ := hcs'
    have hlen : 1 + rest.length = (v :: rest).length := by simp; omega
    rw [hlen] at hwalk'
    refine ⟨reg', mi', methInfo, ?_, hm', hc', hwalk', revIds_nodup _ _,
      revIds_length _ _⟩
    simp [declareAll, hd, hrest]

theorem declareMethod_chain_walk_witness :
    ∃ reg' mi' methInfo,
      declareAll regFresh "m" "meth"
        [GoValue.func ⟨10, tyMeth⟩, GoValue.func ⟨11, tyMeth⟩] = .ok reg' ∧
      lookupA reg'.models "m" = some mi' ∧
      lookupA mi'.methods.cache "meth" = some methInfo ∧
      WalksTo methInfo.nextLayer (some methInfo.topLayer) (revIds 0 2) ∧
      (revIds 0 2).Nodup ∧
      (revIds 0 2).length = 2 :=
  declareMethod_chain_walk regFresh "m" "meth" tyMeth
    [⟨10, tyMeth⟩, ⟨11, tyMeth⟩] ⟨"m", mcFresh⟩
    rfl rfl rfl rfl (by decide) (by decide)

end Yep
